import Mathlib

/-!
Verification of the Universal Document Parser core
(src/docparser/src/document_parser.h and src/docparser/src/python_bindings.cpp).

Shallow embedding conventions:
* std::string is modelled by Lean String (a structure over List Char);
  character-level scans are written over List Char and wrapped back into
  String where the source produces a std::string.
* std::map<std::string, std::string> metadata is modelled as an association
  list with a set operation that replaces the value of an existing key and
  otherwise appends; the claims only ever observe lookups, never the
  (sorted) iteration order of std::map, so the ordering difference is
  unobservable here.
* readFile is the out-of-scope I/O collaborator: each parse function takes
  the already-read content buffer as an extra argument.
* fallible code returns Except: the one genuine failure point in the five
  extractors is JSONParser::formatJSON passing a negative int count to
  std::string(count, char) (the int converts to an enormous size_t and the
  constructor throws std::length_error), modelled by mkSpacesCpp.
-/

/-- Association-list model of std::map<std::string, std::string>. -/
abbrev Metadata := List (String × String)

/-- Model of map::operator[] assignment: replace the value at an existing
key, otherwise add the binding. (std::map keeps keys sorted; the claims
never observe iteration order, only lookups.) -/
def Metadata.set : Metadata → String → String → Metadata
  | [], k, v => [(k, v)]
  | (k0, v0) :: rest, k, v =>
    if k0 = k then (k, v) :: rest else (k0, v0) :: Metadata.set rest k v

/-- Model of map lookup. -/
def Metadata.get? : Metadata → String → Option String
  | [], _ => none
  | (k0, v0) :: rest, k => if k0 = k then some v0 else Metadata.get? rest k

/-- The Document struct of document_parser.h: content, metadata, format,
pages. The two-argument C++ constructor leaves metadata and pages empty. -/
structure Document where
  content : String
  metadata : Metadata
  format : String
  pages : List String
  deriving Repr, DecidableEq

/-- Document(text, fmt) constructor: metadata and pages default-empty. -/
def Document.mkCF (text fmt : String) : Document :=
  ⟨text, [], fmt, []⟩

/-- C-locale tolower as applied bytewise by DocumentParser::toLowerCase:
only ASCII A-Z map to a-z. -/
def cLower (c : Char) : Char :=
  if 'A' ≤ c ∧ c ≤ 'Z' then Char.ofNat (c.toNat + 32) else c

/-- DocumentParser::toLowerCase: lowercase every character. -/
def toLowerCaseStr (s : String) : String :=
  String.mk (s.data.map cLower)

/-- The suffix of the character list strictly after its last dot
(none when no dot occurs): the list-level core of
filename.find_last_of(dot) followed by substr(dot + 1). -/
def lastDotSuffix : List Char → Option (List Char)
  | [] => none
  | c :: rest =>
    match lastDotSuffix rest with
    | some s => some s
    | none => if c = '.' then some rest else none

/-- DocumentParser::getFileExtension: lowercased substring after the last
dot, empty string when the filename has no dot. -/
def getFileExtension (filename : String) : String :=
  match lastDotSuffix filename.data with
  | some s => toLowerCaseStr (String.mk s)
  | none => ""

namespace TextParser

/-- TextParser::canParse. -/
def canParse (filename : String) : Bool :=
  let ext := getFileExtension filename
  ext == "txt" || ext == "text"

/-- TextParser::parse with the file content supplied by the caller
(readFile is the external I/O collaborator): content passed through,
metadata encoding and lines. -/
def parse (content : String) : Document :=
  let doc := Document.mkCF content "text"
  let doc := { doc with metadata := doc.metadata.set "encoding" "utf-8" }
  { doc with
    metadata := doc.metadata.set "lines"
      (toString (content.data.count '\n' + 1)) }

end TextParser

/-- Body of the std::getline loop of CSVParser::parseCSV with acc the
characters of the line read so far: a newline ends the line (delimiter
consumed); a newline that is the last character ends the loop as well,
because the next getline hits end-of-file having read nothing and fails;
end of input with a pending line emits that line (getline succeeds when it
read characters before end-of-file). -/
def getlinesGo : List Char → List Char → List (List Char)
  | [], acc => [acc]
  | '\n' :: [], acc => [acc]
  | '\n' :: (d :: rest), acc => acc :: getlinesGo (d :: rest) []
  | c :: rest, acc => getlinesGo rest (acc ++ [c])

/-- Model of the whole getline loop: empty input yields no lines (the
first getline fails at once). -/
def getlines : List Char → List (List Char)
  | [] => []
  | c :: rest => getlinesGo (c :: rest) []

namespace CSVParser

/-- CSVParser::canParse. -/
def canParse (filename : String) : Bool :=
  getFileExtension filename == "csv"

/-- Character-list core of CSVParser::parseCSVLine: scan with the current
field accumulator and the inQuotes flag; a double quote toggles the flag
and is not appended, a comma outside quotes ends the field, every other
character is appended; the final field is always pushed at end of line. -/
def parseCSVLineGo : List Char → List Char → Bool → List (List Char)
  | [], field, _ => [field]
  | c :: rest, field, inQuotes =>
    if c = '"' then parseCSVLineGo rest field (!inQuotes)
    else if c = ',' ∧ inQuotes = false then
      field :: parseCSVLineGo rest [] false
    else parseCSVLineGo rest (field ++ [c]) inQuotes

/-- CSVParser::parseCSVLine. -/
def parseCSVLine (line : String) : List String :=
  (parseCSVLineGo line.data [] false).map String.mk

/-- CSVParser::parseCSV: getline over the content, one parsed row per
line. -/
def parseCSV (content : String) : List (List String) :=
  (getlines content.data).map (fun l => (parseCSVLineGo l [] false).map String.mk)

/-- The inner loop of CSVParser::parse that joins one row with the
literal separator (a separator is emitted before every field but the
first). -/
def rowToLine : List String → String
  | [] => ""
  | [f] => f
  | f :: g :: rest => f ++ " | " ++ rowToLine (g :: rest)

/-- The outer formatting loop of CSVParser::parse: each joined row is
followed by a newline. -/
def formatRows : List (List String) → String
  | [] => ""
  | row :: rest => rowToLine row ++ "\n" ++ formatRows rest

/-- CSVParser::parse with the file content supplied by the caller: rows
and columns metadata (columns only when at least one row exists), and the
reformatted pipe-joined content. -/
def parse (content : String) : Document :=
  let doc := Document.mkCF content "csv"
  let rows := parseCSV content
  let doc := { doc with metadata := doc.metadata.set "rows" (toString rows.length) }
  let doc :=
    match rows with
    | [] => doc
    | row0 :: _ =>
      { doc with metadata := doc.metadata.set "columns" (toString row0.length) }
  { doc with content := formatRows rows }

end CSVParser

namespace JSONParser

/-- Model of std::string(indent * 2, space) as used by
JSONParser::formatJSON. The count expression is a C++ int; when it is
negative the conversion to the size_t constructor parameter wraps to an
enormous value above max_size() and the constructor throws
std::length_error, so the call is fallible. -/
def mkSpacesCpp (n : Int) : Except String String :=
  if n < 0 then Except.error "length_error"
  else Except.ok (String.mk (List.replicate n.toNat ' '))

/-- JSONParser::canParse. -/
def canParse (filename : String) : Bool :=
  getFileExtension filename == "json"

/-- Character loop of JSONParser::formatJSON: prev is the previous raw
character (none at position zero, used for the backslash-escape test),
inString the string-state toggled by an unescaped quote before the branch
is chosen, indent the current int indent level. Outside a string an open
bracket emits itself, a newline and the increased indentation; a close
bracket emits a newline, the decreased indentation and itself; a comma
emits itself, a newline and the current indentation; space, tab and
newline are dropped; everything else is emitted verbatim. Inside a string
every character is emitted verbatim. -/
def formatJSONGo : List Char → Option Char → Bool → Int → Except String String
  | [], _, _, _ => Except.ok ""
  | c :: rest, prev, inString, indent =>
    let inString' :=
      if c = '"' ∧ prev ≠ some '\\' then !inString else inString
    if inString' = false then
      if c = '{' ∨ c = '[' then
        match mkSpacesCpp ((indent + 1) * 2) with
        | Except.error e => Except.error e
        | Except.ok sp =>
          match formatJSONGo rest (some c) inString' (indent + 1) with
          | Except.error e => Except.error e
          | Except.ok tail => Except.ok (String.singleton c ++ "\n" ++ sp ++ tail)
      else if c = '}' ∨ c = ']' then
        match mkSpacesCpp ((indent - 1) * 2) with
        | Except.error e => Except.error e
        | Except.ok sp =>
          match formatJSONGo rest (some c) inString' (indent - 1) with
          | Except.error e => Except.error e
          | Except.ok tail => Except.ok ("\n" ++ sp ++ String.singleton c ++ tail)
      else if c = ',' then
        match mkSpacesCpp (indent * 2) with
        | Except.error e => Except.error e
        | Except.ok sp =>
          match formatJSONGo rest (some c) inString' indent with
          | Except.error e => Except.error e
          | Except.ok tail => Except.ok ("," ++ "\n" ++ sp ++ tail)
      else if c ≠ ' ' ∧ c ≠ '\t' ∧ c ≠ '\n' then
        match formatJSONGo rest (some c) inString' indent with
        | Except.error e => Except.error e
        | Except.ok tail => Except.ok (String.singleton c ++ tail)
      else
        formatJSONGo rest (some c) inString' indent
    else
      match formatJSONGo rest (some c) inString' indent with
      | Except.error e => Except.error e
      | Except.ok tail => Except.ok (String.singleton c ++ tail)

/-- JSONParser::formatJSON. -/
def formatJSON (json : String) : Except String String :=
  formatJSONGo json.data none false 0

/-- JSONParser::parse with the file content supplied by the caller: the
reformatted content plus type and size metadata; a length_error escaping
formatJSON propagates out of parse. -/
def parse (content : String) : Except String Document :=
  match formatJSON content with
  | Except.error e => Except.error e
  | Except.ok formatted =>
    let doc := Document.mkCF content "json"
    let doc := { doc with content := formatted }
    let doc := { doc with metadata := doc.metadata.set "type" "json" }
    Except.ok
      { doc with metadata := doc.metadata.set "size" (toString content.length) }

end JSONParser

/-- C1 (code_bug record): on the single-character input consisting of one
closing bracket, the Structured extractor does not clamp the negative
space count to zero: indent falls to minus one and the space-string
constructor receives a negative count, so formatJSON (and hence
JSONParser::parse) fails with length_error, contradicting the claim that
no input makes any of the five built-in extraction algorithms fail. -/
theorem formatJSON_unbalanced_bracket_fails :
    JSONParser.formatJSON "]" = Except.error "length_error" ∧
    JSONParser.parse "]" = Except.error "length_error" ∧
    JSONParser.formatJSON "\x7b\"a\":1\x7d" =
      Except.ok "\x7b\n  \"a\":1\n\x7d" := by
  refine ⟨rfl, rfl, rfl⟩

/-- Whitespace class of the backslash-s escape of std::regex in
ECMAScript mode over char input: space, horizontal tab, newline, vertical
tab, form feed, carriage return. -/
def isWsRe (c : Char) : Bool :=
  c == ' ' || c == '\t' || c == '\n' || c == Char.ofNat 11 ||
    c == Char.ofNat 12 || c == '\r'

/-- State machine equivalent of regex_replace(result, regex of one-or-more
whitespace, one space): prevWs records whether the previous character was
whitespace; the first character of each maximal whitespace run is emitted
as a single space and the rest of the run is dropped. -/
def collapseWsGo : List Char → Bool → List Char
  | [], _ => []
  | c :: rest, prevWs =>
    if isWsRe c then
      if prevWs then collapseWsGo rest true
      else ' ' :: collapseWsGo rest true
    else c :: collapseWsGo rest false

/-- Full whitespace normalization pass of XMLParser::extractTextFromXML. -/
def collapseWs (l : List Char) : List Char :=
  collapseWsGo l false

namespace XMLParser

/-- XMLParser::canParse. -/
def canParse (filename : String) : Bool :=
  let ext := getFileExtension filename
  ext == "xml" || ext == "html" || ext == "htm"

/-- Character loop of XMLParser::extractTextFromXML: an opening angle
bracket enters tag state and is dropped, a closing angle bracket leaves
tag state and emits one space, any other character is emitted exactly when
not in tag state. -/
def extractGo : List Char → Bool → List Char
  | [], _ => []
  | c :: rest, inTag =>
    if c = '<' then extractGo rest true
    else if c = '>' then ' ' :: extractGo rest false
    else if inTag then extractGo rest true
    else c :: extractGo rest false

/-- XMLParser::extractTextFromXML: tag stripping followed by the
whitespace-collapsing regex pass. -/
def extractTextFromXML (xml : String) : String :=
  String.mk (collapseWs (extractGo xml.data false))

/-- XMLParser::parse with the file content supplied by the caller: format
is the (lowercased) extension of the filename, content is the de-tagged
text, metadata records the extension and the unconditional has_tags
flag. -/
def parse (filename content : String) : Document :=
  let ext := getFileExtension filename
  let doc := Document.mkCF content ext
  let doc := { doc with content := extractTextFromXML content }
  let doc := { doc with metadata := doc.metadata.set "format" ext }
  { doc with metadata := doc.metadata.set "has_tags" "true" }

end XMLParser

/-- Spec-worded restatement of the tag-stripping scan as a left fold over
the input with the pair of tag-state and output accumulated so far: each
opening angle bracket is dropped while setting tag state, each closing
angle bracket appends a single space while clearing it, characters in tag
state are dropped and all others appended verbatim. -/
def stripTagsFold (l : List Char) : List Char :=
  (l.foldl
    (fun st c =>
      if c = '<' then (true, st.2)
      else if c = '>' then (false, st.2 ++ [' '])
      else if st.1 then st
      else (st.1, st.2 ++ [c]))
    (false, [])).2

/-- The fold restatement agrees with the direct recursion of
XMLParser::extractTextFromXML for every starting tag state and
accumulator. -/
theorem stripTagsFold_go (l : List Char) :
    ∀ (tag : Bool) (acc : List Char),
      (l.foldl
        (fun st c =>
          if c = '<' then (true, st.2)
          else if c = '>' then (false, st.2 ++ [' '])
          else if st.1 then st
          else (st.1, st.2 ++ [c]))
        (tag, acc)).2 = acc ++ XMLParser.extractGo l tag := by
  induction l with
  | nil => intro tag acc; simp [XMLParser.extractGo]
  | cons c rest ih =>
    intro tag acc
    simp only [List.foldl_cons, XMLParser.extractGo]
    by_cases h1 : c = '<'
    · simp [h1, ih]
    · by_cases h2 : c = '>'
      · simp [h1, h2, ih]
      · by_cases h3 : tag
        · simp [h1, h2, h3, ih]
        · simp [h1, h2, h3, ih]

/-- C5: for every filename and content the Markup extractor's content is
exactly the whitespace-collapsed result of the spec-worded tag-stripping
fold, and on the nested paragraph example it is the words Hello and World
separated by single spaces with one leading and one trailing space. -/
theorem xmlParser_content_spec (filename content : String) :
    (XMLParser.parse filename content).content =
      String.mk (collapseWs (stripTagsFold content.data)) ∧
    (XMLParser.parse "f.html" "<p>Hello <b>World</b></p>").content =
      " Hello World " := by
  constructor
  · show String.mk (collapseWs (XMLParser.extractGo content.data false)) = _
    rw [stripTagsFold, stripTagsFold_go]
    rfl
  · rfl

namespace MarkdownParser

/-- MarkdownParser::canParse. -/
def canParse (filename : String) : Bool :=
  let ext := getFileExtension filename
  ext == "md" || ext == "markdown"

/-- Model of regex_replace with pattern caret hash-run optional-whitespace
in ECMAScript mode (no multiline flag): the caret anchors at the start of
the whole input only, so the single possible match is a leading run of one
or more hash characters followed by the maximal run of whitespace, which
is deleted; any input not starting with a hash is unchanged. -/
def stripHeaderL (l : List Char) : List Char :=
  if l.head? = some '#' then (l.dropWhile (· = '#')).dropWhile isWsRe else l

/-- Model of regex_replace for the bold pattern (two stars, one or more
non-star characters captured, two stars, replaced by the capture): scan
for the leftmost match, emit the capture, continue after the match end;
on failure advance one character. The fuel argument (instantiated with
the input length by the wrapper, which every recursive call strictly
shrinks) makes the leftward re-scan after a failed two-star prefix
structurally terminating; fuel zero is never reached. -/
def replaceBoldF : Nat → List Char → List Char
  | 0, l => l
  | _, [] => []
  | fuel + 1, '*' :: '*' :: rest =>
    let capture := rest.takeWhile (· ≠ '*')
    let r := rest.dropWhile (· ≠ '*')
    if capture ≠ [] ∧ r.take 2 = ['*', '*'] then
      capture ++ replaceBoldF fuel (r.drop 2)
    else '*' :: replaceBoldF fuel ('*' :: rest)
  | fuel + 1, c :: rest => c :: replaceBoldF fuel rest

/-- Model of regex_replace for the italic pattern (one star, one or more
non-star characters captured, one star, replaced by the capture). -/
def replaceItalicF : Nat → List Char → List Char
  | 0, l => l
  | _, [] => []
  | fuel + 1, '*' :: rest =>
    let capture := rest.takeWhile (· ≠ '*')
    let r := rest.dropWhile (· ≠ '*')
    if capture ≠ [] ∧ r.take 1 = ['*'] then
      capture ++ replaceItalicF fuel (r.drop 1)
    else '*' :: replaceItalicF fuel rest
  | fuel + 1, c :: rest => c :: replaceItalicF fuel rest

/-- Model of regex_replace for the link pattern (bracketed label of one or
more non-close-bracket characters, then a parenthesized url of one or more
non-close-paren characters, replaced by the label). -/
def replaceLinkF : Nat → List Char → List Char
  | 0, l => l
  | _, [] => []
  | fuel + 1, '[' :: rest =>
    let label := rest.takeWhile (· ≠ ']')
    let r := rest.dropWhile (· ≠ ']')
    let r2 := r.drop 2
    let url := r2.takeWhile (· ≠ ')')
    let r3 := r2.dropWhile (· ≠ ')')
    if label ≠ [] ∧ r.take 2 = [']', '('] ∧ url ≠ [] ∧ r3.take 1 = [')'] then
      label ++ replaceLinkF fuel (r3.drop 1)
    else '[' :: replaceLinkF fuel rest
  | fuel + 1, c :: rest => c :: replaceLinkF fuel rest

/-- Model of regex_replace for the fenced-block pattern (three backticks,
zero or more non-backtick characters, three backticks, replaced by
nothing). -/
def removeCodeBlocksF : Nat → List Char → List Char
  | 0, l => l
  | _, [] => []
  | fuel + 1, '`' :: '`' :: '`' :: rest =>
    let r := rest.dropWhile (· ≠ '`')
    if r.take 3 = ['`', '`', '`'] then removeCodeBlocksF fuel (r.drop 3)
    else '`' :: removeCodeBlocksF fuel ('`' :: '`' :: rest)
  | fuel + 1, c :: rest => c :: removeCodeBlocksF fuel rest

/-- Model of regex_replace for the inline-code pattern (one backtick, one
or more non-backtick characters captured, one backtick, replaced by the
capture). -/
def replaceInlineCodeF : Nat → List Char → List Char
  | 0, l => l
  | _, [] => []
  | fuel + 1, '`' :: rest =>
    let capture := rest.takeWhile (· ≠ '`')
    let r := rest.dropWhile (· ≠ '`')
    if capture ≠ [] ∧ r.take 1 = ['`'] then
      capture ++ replaceInlineCodeF fuel (r.drop 1)
    else '`' :: replaceInlineCodeF fuel rest
  | fuel + 1, c :: rest => c :: replaceInlineCodeF fuel rest

/-- MarkdownParser::convertMarkdownToText: the six regex_replace passes in
source order (header strip, bold, italic, links, fenced blocks, inline
code). -/
def convertMarkdownToText (md : String) : String :=
  let l0 := stripHeaderL md.data
  let l1 := replaceBoldF l0.length l0
  let l2 := replaceItalicF l1.length l1
  let l3 := replaceLinkF l2.length l2
  let l4 := removeCodeBlocksF l3.length l3
  String.mk (replaceInlineCodeF l4.length l4)

/-- MarkdownParser::parse with the file content supplied by the caller. -/
def parse (content : String) : Document :=
  let doc := Document.mkCF content "markdown"
  let doc := { doc with content := convertMarkdownToText content }
  { doc with metadata := doc.metadata.set "format" "markdown" }

end MarkdownParser

/-- C6: header stripping is anchored at the very start of the content (an
input whose first character is not a hash is left unchanged by the header
pass, so headers after the first line survive, as the second conjunct
shows on a concrete two-line input), and the full pass pipeline on the
spec example unwraps bold, italic, link and inline code and removes the
leading hash. -/
theorem markdown_spec (s : List Char) (h : s.head? ≠ some '#') :
    MarkdownParser.stripHeaderL s = s ∧
    (MarkdownParser.parse "a\n# b").content = "a\n# b" ∧
    (MarkdownParser.parse "# Title\n**bold** and *em* and [link](url) and `code`").content =
      "Title\nbold and em and link and code" := by
  refine ⟨?_, rfl, rfl⟩
  simp [MarkdownParser.stripHeaderL, h]

/-- C6 witness: the header pass at a concrete input not starting with a
hash. -/
theorem markdown_spec_witness :
    MarkdownParser.stripHeaderL ['x', '#'] = ['x', '#'] :=
  (markdown_spec ['x', '#'] (by decide)).1

/-- The five registered parser classes, in the registration order of the
UniversalDocumentParser constructor. -/
inductive ParserKind
  | text
  | csv
  | json
  | xml
  | markdown
  deriving Repr, DecidableEq

/-- Dispatch of the virtual canParse call. -/
def kindCanParse : ParserKind → String → Bool
  | .text, fn => TextParser.canParse fn
  | .csv, fn => CSVParser.canParse fn
  | .json, fn => JSONParser.canParse fn
  | .xml, fn => XMLParser.canParse fn
  | .markdown, fn => MarkdownParser.canParse fn

/-- Dispatch of the virtual getFormatName call. -/
def kindFormatName : ParserKind → String
  | .text => "Plain Text"
  | .csv => "CSV"
  | .json => "JSON"
  | .xml => "XML/HTML"
  | .markdown => "Markdown"

/-- Dispatch of the virtual parse call, with the file content supplied
by the caller; only the JSON parser has a genuine failure path. -/
def kindParse : ParserKind → String → String → Except String Document
  | .text, _, content => Except.ok (TextParser.parse content)
  | .csv, _, content => Except.ok (CSVParser.parse content)
  | .json, _, content => JSONParser.parse content
  | .xml, fn, content => Except.ok (XMLParser.parse fn content)
  | .markdown, _, content => Except.ok (MarkdownParser.parse content)

/-- The parsers vector built by the UniversalDocumentParser
constructor. -/
def parsersList : List ParserKind :=
  [.text, .csv, .json, .xml, .markdown]

/-- The first registered parser whose canParse accepts the filename: the
selection performed by the loop in UniversalDocumentParser::parseDocument
and canParseFile. -/
def detect (filename : String) : Option ParserKind :=
  parsersList.find? (fun p => kindCanParse p filename)

/-- UniversalDocumentParser::canParseFile. -/
def canParseFile (filename : String) : Bool :=
  parsersList.any (fun p => kindCanParse p filename)

/-- The two throw sites of UniversalDocumentParser::parseDocument, both
std::runtime_error in the source, distinguished there by their messages
(carried here as the constructor payloads). -/
inductive PError
  | unsupportedFormat (filename : String)
  | extractionFailed (filename : String) (cause : String)
  deriving Repr, DecidableEq

/-- The what() message of each error. -/
def PError.what : PError → String
  | .unsupportedFormat fn => "No suitable parser found for: " ++ fn
  | .extractionFailed fn cause => "Failed to parse " ++ fn ++ ": " ++ cause

/-- UniversalDocumentParser::parseDocument with the file content supplied
by the caller: the first accepting parser runs; on success its Document
gains the parser and filename metadata; an exception from the parser is
caught and re-thrown wrapped with the filename; when no parser accepts,
the no-suitable-parser error is thrown. -/
def parseDocument (filename content : String) : Except PError Document :=
  match detect filename with
  | none => Except.error (PError.unsupportedFormat filename)
  | some p =>
    match kindParse p filename content with
    | Except.error e => Except.error (PError.extractionFailed filename e)
    | Except.ok doc =>
      let doc := { doc with metadata := doc.metadata.set "parser" (kindFormatName p) }
      Except.ok { doc with metadata := doc.metadata.set "filename" filename }

/-- PyDocumentParser::parse_text_content from python_bindings.cpp: builds
a Document from the caller-supplied content and format tag, marks the
metadata type as direct content, and performs no other processing. -/
def parse_text_content (content format : String) : Document :=
  let doc := Document.mkCF content format
  { doc with metadata := doc.metadata.set "type" "direct_content" }

/-- The recognized-extension test of each parser written directly over the
extension string (each canParse method is exactly this test composed with
getFileExtension). -/
def extAccept : ParserKind → String → Bool
  | .text, e => e == "txt" || e == "text"
  | .csv, e => e == "csv"
  | .json, e => e == "json"
  | .xml, e => e == "xml" || e == "html" || e == "htm"
  | .markdown, e => e == "md" || e == "markdown"

/-- Every canParse method is its recognized-extension test applied to the
lowercased extension. -/
theorem kindCanParse_eq (p : ParserKind) (fn : String) :
    kindCanParse p fn = extAccept p (getFileExtension fn) := by
  cases p <;> rfl

/-- Detection as a function of the extension alone. -/
def detectExt (e : String) : Option ParserKind :=
  parsersList.find? (fun p => extAccept p e)

/-- The registry detection loop factors through the extension. -/
theorem detect_eq_detectExt (fn : String) :
    detect fn = detectExt (getFileExtension fn) := by
  unfold detect detectExt
  congr 1
  funext p
  exact kindCanParse_eq p fn

/-- The canParseFile loop factors through the extension. -/
theorem canParseFile_eq (fn : String) :
    canParseFile fn = parsersList.any (fun p => extAccept p (getFileExtension fn)) := by
  unfold canParseFile
  congr 1
  funext p
  exact kindCanParse_eq p fn

/-- Detection selects PlainText exactly on the txt and text extensions. -/
theorem detectExt_text_iff (e : String) :
    detectExt e = some ParserKind.text ↔ e = "txt" ∨ e = "text" := by
  constructor
  · intro h
    have hp := List.find?_some h
    simpa [extAccept] using hp
  · rintro (rfl | rfl) <;> decide

/-- Detection selects Tabular exactly on the csv extension. -/
theorem detectExt_csv_iff (e : String) :
    detectExt e = some ParserKind.csv ↔ e = "csv" := by
  constructor
  · intro h
    have hp := List.find?_some h
    simpa [extAccept] using hp
  · rintro rfl
    decide

/-- Detection selects Structured exactly on the json extension. -/
theorem detectExt_json_iff (e : String) :
    detectExt e = some ParserKind.json ↔ e = "json" := by
  constructor
  · intro h
    have hp := List.find?_some h
    simpa [extAccept] using hp
  · rintro rfl
    decide

/-- Detection selects Markup exactly on the xml, html and htm
extensions. -/
theorem detectExt_xml_iff (e : String) :
    detectExt e = some ParserKind.xml ↔ e = "xml" ∨ e = "html" ∨ e = "htm" := by
  constructor
  · intro h
    have hp := List.find?_some h
    simp [extAccept] at hp
    tauto
  · rintro (rfl | rfl | rfl) <;> decide

/-- Detection selects LightMarkup exactly on the md and markdown
extensions. -/
theorem detectExt_markdown_iff (e : String) :
    detectExt e = some ParserKind.markdown ↔ e = "md" ∨ e = "markdown" := by
  constructor
  · intro h
    have hp := List.find?_some h
    simpa [extAccept] using hp
  · rintro (rfl | rfl) <;> decide

/-- lastDotSuffix is none exactly when the list holds no dot. -/
theorem lastDotSuffix_eq_none_iff (l : List Char) :
    lastDotSuffix l = none ↔ '.' ∉ l := by
  induction l with
  | nil => simp [lastDotSuffix]
  | cons c rest ih =>
    simp only [lastDotSuffix]
    cases h : lastDotSuffix rest with
    | some s =>
      have hdot : '.' ∈ rest := by
        by_contra hn
        rw [← ih, h] at hn
        exact Option.noConfusion hn
      constructor
      · intro hx; exact Option.noConfusion hx
      · intro hx; exact absurd (List.mem_cons_of_mem c hdot) hx
    | none =>
      by_cases hc : c = '.'
      · subst hc
        simp
      · have hrest : '.' ∉ rest := ih.mp h
        simp [hc, List.mem_cons, hrest]
        intro hx
        exact hc hx.symm

/-- lastDotSuffix returns s exactly when the list splits as a prefix, a
dot and then s, with no further dot inside s: s is the substring after
the last dot. -/
theorem lastDotSuffix_eq_some_iff (l s : List Char) :
    lastDotSuffix l = some s ↔ (∃ pre, l = pre ++ '.' :: s) ∧ '.' ∉ s := by
  induction l generalizing s with
  | nil =>
    simp only [lastDotSuffix]
    constructor
    · intro hx; exact Option.noConfusion hx
    · rintro ⟨⟨pre, hpre⟩, _⟩
      exact absurd hpre (by simp)
  | cons c rest ih =>
    simp only [lastDotSuffix]
    cases h : lastDotSuffix rest with
    | some t =>
      obtain ⟨⟨p, hp⟩, hnt⟩ := (ih t).mp h
      constructor
      · intro hts
        have hts : t = s := Option.some.inj hts
        subst hts
        exact ⟨⟨c :: p, by simp [hp]⟩, hnt⟩
      · rintro ⟨⟨pre, hpre⟩, hns⟩
        cases pre with
        | nil =>
          simp only [List.nil_append, List.cons.injEq] at hpre
          exfalso
          apply hns
          rw [← hpre.2, hp]
          simp
        | cons d pre2 =>
          simp only [List.cons_append, List.cons.injEq] at hpre
          have : lastDotSuffix rest = some s := (ih s).mpr ⟨⟨pre2, hpre.2⟩, hns⟩
          rw [h] at this
          rw [Option.some.inj this]
    | none =>
      have hnr : '.' ∉ rest := (lastDotSuffix_eq_none_iff rest).mp h
      by_cases hc : c = '.'
      · subst hc
        simp only [if_pos rfl]
        constructor
        · intro hs
          have hs : rest = s := Option.some.inj hs
          subst hs
          exact ⟨⟨[], rfl⟩, hnr⟩
        · rintro ⟨⟨pre, hpre⟩, hns⟩
          cases pre with
          | nil =>
            simp only [List.nil_append, List.cons.injEq] at hpre
            rw [hpre.2]
            simp
          | cons d pre2 =>
            simp only [List.cons_append, List.cons.injEq] at hpre
            exfalso
            apply hnr
            rw [hpre.2]
            simp
      · simp only [if_neg hc]
        constructor
        · intro hx; exact Option.noConfusion hx
        · rintro ⟨⟨pre, hpre⟩, hns⟩
          cases pre with
          | nil =>
            simp only [List.nil_append, List.cons.injEq] at hpre
            exact absurd hpre.1 hc
          | cons d pre2 =>
            simp only [List.cons_append, List.cons.injEq] at hpre
            exact absurd (by rw [hpre.2]; simp : '.' ∈ rest) hnr

/-- C4: detection is a pure function of the lowercased substring after
the last dot (empty when no dot exists), selecting each of the five
extractors exactly on its recognized-extension set, with canParseFile
true exactly on the union of the sets; uppercase and lowercase spellings
of an extension select the same extractor. -/
theorem detection_spec (fn : String) :
    ('.' ∉ fn.data → getFileExtension fn = "") ∧
    (∀ pre s, fn.data = pre ++ '.' :: s → '.' ∉ s →
      getFileExtension fn = String.mk (s.map cLower)) ∧
    (detect fn = some ParserKind.text ↔
      getFileExtension fn = "txt" ∨ getFileExtension fn = "text") ∧
    (detect fn = some ParserKind.csv ↔ getFileExtension fn = "csv") ∧
    (detect fn = some ParserKind.json ↔ getFileExtension fn = "json") ∧
    (detect fn = some ParserKind.xml ↔
      getFileExtension fn = "xml" ∨ getFileExtension fn = "html" ∨
        getFileExtension fn = "htm") ∧
    (detect fn = some ParserKind.markdown ↔
      getFileExtension fn = "md" ∨ getFileExtension fn = "markdown") ∧
    (canParseFile fn = true ↔
      getFileExtension fn ∈
        (["txt", "text", "csv", "json", "xml", "html", "htm", "md",
          "markdown"] : List String)) ∧
    detect "A.CSV" = detect "a.csv" ∧ detect "a.csv" = some ParserKind.csv := by
  refine ⟨?_, ?_, ?_, ?_, ?_, ?_, ?_, ?_, by decide, by decide⟩
  · intro hnd
    unfold getFileExtension
    rw [(lastDotSuffix_eq_none_iff fn.data).mpr hnd]
  · intro pre s hsplit hns
    unfold getFileExtension
    rw [(lastDotSuffix_eq_some_iff fn.data s).mpr ⟨⟨pre, hsplit⟩, hns⟩]
    rfl
  · rw [detect_eq_detectExt]; exact detectExt_text_iff _
  · rw [detect_eq_detectExt]; exact detectExt_csv_iff _
  · rw [detect_eq_detectExt]; exact detectExt_json_iff _
  · rw [detect_eq_detectExt]; exact detectExt_xml_iff _
  · rw [detect_eq_detectExt]; exact detectExt_markdown_iff _
  · rw [canParseFile_eq]
    simp [parsersList, extAccept, List.mem_cons]
    tauto

/-- Setting a key makes a later lookup of that key return the new
value. -/
theorem Metadata.get?_set_self (m : Metadata) (k v : String) :
    (m.set k v).get? k = some v := by
  induction m with
  | nil => simp [Metadata.set, Metadata.get?]
  | cons kv rest ih =>
    obtain ⟨k0, v0⟩ := kv
    by_cases h : k0 = k
    · simp [Metadata.set, Metadata.get?, h]
    · simp [Metadata.set, Metadata.get?, h, ih]

/-- Setting one key leaves lookups of a different key unchanged. -/
theorem Metadata.get?_set_ne (m : Metadata) (k k2 v : String) (h : k2 ≠ k) :
    (m.set k2 v).get? k = m.get? k := by
  induction m with
  | nil => simp [Metadata.set, Metadata.get?, h]
  | cons kv rest ih =>
    obtain ⟨k0, v0⟩ := kv
    by_cases h0 : k0 = k2
    · subst h0
      simp [Metadata.set, Metadata.get?, h]
    · simp [Metadata.set, Metadata.get?, h0, ih]

/-- The format tag of the Tabular extractor is the csv literal in both
branches of the row match. -/
theorem csvParse_format (content : String) :
    (CSVParser.parse content).format = "csv" := by
  unfold CSVParser.parse
  cases h : CSVParser.parseCSV content <;> simp [h, Document.mkCF]

/-- Documents returned by a successful registry extraction never carry an
empty format tag: the four fixed tags are literals and the Markup tag is
one of the three accepted extensions. -/
theorem parseDocument_ok_format_ne (fn c : String) (doc : Document)
    (h : parseDocument fn c = Except.ok doc) : doc.format ≠ "" := by
  cases hd : detect fn with
  | none =>
    simp only [parseDocument, hd] at h
    exact Except.noConfusion h
  | some p =>
    cases hp : kindParse p fn c with
    | error e =>
      simp only [parseDocument, hd, hp] at h
      exact Except.noConfusion h
    | ok d =>
      simp only [parseDocument, hd, hp] at h
      have hdoc : doc = { d with
          metadata := (d.metadata.set "parser" (kindFormatName p)).set "filename" fn } :=
        (Except.ok.inj h).symm
      have hfmt : doc.format = d.format := by rw [hdoc]
      rw [hfmt]
      have hd2 : List.find? (fun q => kindCanParse q fn) parsersList = some p := hd
      have hcan0 := List.find?_some hd2
      have hcan : kindCanParse p fn = true := hcan0
      cases p with
      | text =>
        simp only [kindParse] at hp
        have hd3 : d = TextParser.parse c := (Except.ok.inj hp).symm
        rw [hd3]
        intro hx; exact String.noConfusion hx (fun hx2 => List.noConfusion hx2)
      | csv =>
        simp only [kindParse] at hp
        have hd3 : d = CSVParser.parse c := (Except.ok.inj hp).symm
        rw [hd3, csvParse_format c]
        intro hx; exact String.noConfusion hx (fun hx2 => List.noConfusion hx2)
      | json =>
        simp only [kindParse] at hp
        unfold JSONParser.parse at hp
        cases hf : JSONParser.formatJSON c with
        | error e => rw [hf] at hp; exact Except.noConfusion hp
        | ok formatted =>
          simp only [hf] at hp
          have hd3 : d.format = "json" := by
            rw [← Except.ok.inj hp]
            rfl
          rw [hd3]
          intro hx; exact String.noConfusion hx (fun hx2 => List.noConfusion hx2)
      | xml =>
        simp only [kindParse] at hp
        have hd3 : d = XMLParser.parse fn c := (Except.ok.inj hp).symm
        have hext : d.format = getFileExtension fn := by rw [hd3]; rfl
        rw [hext]
        rw [kindCanParse_eq] at hcan
        have hor : getFileExtension fn = "xml" ∨ getFileExtension fn = "html" ∨
            getFileExtension fn = "htm" := by
          simp [extAccept] at hcan
          tauto
        rcases hor with h3 | h3 | h3 <;> rw [h3] <;>
          (intro hx; exact String.noConfusion hx (fun hx2 => List.noConfusion hx2))
      | markdown =>
        simp only [kindParse] at hp
        have hd3 : d = MarkdownParser.parse c := (Except.ok.inj hp).symm
        rw [hd3]
        intro hx; exact String.noConfusion hx (fun hx2 => List.noConfusion hx2)

/-- C3 counterexample: the direct wrap variant simply stores the
caller-supplied format string, so supplying the empty format string
yields a successfully produced Document whose format tag is empty,
refuting the claim for arbitrary caller-supplied formats. -/
theorem wrap_empty_format_counterexample :
    (parse_text_content "x" "").format = "" := rfl

/-- C3 amended: Documents from the registry path always carry a non-empty
format tag, and the wrap variant passes the caller format string through
unchanged (tagging type direct_content and leaving content untouched), so
its format tag is non-empty exactly when the caller format string is. -/
theorem wrap_format_spec (content fmt : String) (h : fmt ≠ "") :
    (parse_text_content content fmt).format = fmt ∧
    (parse_text_content content fmt).format ≠ "" ∧
    (parse_text_content content fmt).content = content ∧
    (parse_text_content content fmt).metadata.get? "type" = some "direct_content" ∧
    (∀ fn c doc, parseDocument fn c = Except.ok doc → doc.format ≠ "") := by
  exact ⟨rfl, h, rfl, rfl, fun fn c doc hok => parseDocument_ok_format_ne fn c doc hok⟩

/-- C3 witness: the wrap variant at a concrete non-empty format. -/
theorem wrap_format_spec_witness :
    (parse_text_content "x" "csv").format = "csv" :=
  (wrap_format_spec "x" "csv" (by decide)).1

/-- C8: a filename whose extension is recognized by no registered parser
makes parseDocument fail with the no-suitable-parser error naming the
filename (the UnsupportedFormat case), and no Document is returned. -/
theorem unsupported_format_spec (fn content : String)
    (h : getFileExtension fn ∉
      (["txt", "text", "csv", "json", "xml", "html", "htm", "md",
        "markdown"] : List String)) :
    parseDocument fn content = Except.error (PError.unsupportedFormat fn) ∧
    (PError.unsupportedFormat fn).what = "No suitable parser found for: " ++ fn ∧
    (∀ doc, parseDocument fn content ≠ Except.ok doc) := by
  simp only [List.mem_cons, List.mem_singleton, List.not_mem_nil, or_false,
    not_or] at h
  obtain ⟨h1, h2, h3, h4, h5, h6, h7, h8, h9⟩ := h
  have hdet : detect fn = none := by
    rw [detect_eq_detectExt]
    unfold detectExt
    rw [List.find?_eq_none]
    intro p hp
    cases p <;> simp [extAccept] <;> tauto
  have hmain : parseDocument fn content = Except.error (PError.unsupportedFormat fn) := by
    unfold parseDocument
    rw [hdet]
  refine ⟨hmain, rfl, ?_⟩
  intro doc hok
  rw [hmain] at hok
  exact Except.noConfusion hok

/-- C8 witness: a concrete unrecognized extension. -/
theorem unsupported_format_spec_witness :
    parseDocument "file.unknownext" "x" =
      Except.error (PError.unsupportedFormat "file.unknownext") :=
  (unsupported_format_spec "file.unknownext" "x" (by decide)).1

/-- C9: when detection chooses a parser, a successful extraction returns
that parser Document stamped with the parser display name (one of the
five fixed names) and the filename, while a failure inside the parser is
re-thrown wrapped with the filename, never raw. -/
theorem registry_stamp_spec (fn content : String) (p : ParserKind)
    (h : detect fn = some p) :
    (∀ doc, kindParse p fn content = Except.ok doc →
      parseDocument fn content = Except.ok { doc with
        metadata := (doc.metadata.set "parser" (kindFormatName p)).set "filename" fn } ∧
      ((doc.metadata.set "parser" (kindFormatName p)).set "filename" fn).get? "parser" =
        some (kindFormatName p) ∧
      ((doc.metadata.set "parser" (kindFormatName p)).set "filename" fn).get? "filename" =
        some fn) ∧
    (∀ e, kindParse p fn content = Except.error e →
      parseDocument fn content = Except.error (PError.extractionFailed fn e)) ∧
    kindFormatName p ∈
      (["Plain Text", "CSV", "JSON", "XML/HTML", "Markdown"] : List String) := by
  refine ⟨?_, ?_, ?_⟩
  · intro doc hok
    refine ⟨?_, ?_, Metadata.get?_set_self _ _ _⟩
    · simp only [parseDocument, h, hok]
    · rw [Metadata.get?_set_ne _ _ _ _ (by decide)]
      exact Metadata.get?_set_self _ _ _
  · intro e herr
    simp only [parseDocument, h, herr]
  · cases p <;> simp [kindFormatName]

/-- C9 witness: parsing concrete text content through the registry stamps
the Plain Text parser name. -/
theorem registry_stamp_spec_witness :
    (((TextParser.parse "hi").metadata.set "parser"
        (kindFormatName ParserKind.text)).set "filename" "a.txt").get? "parser" =
      some (kindFormatName ParserKind.text) :=
  (((registry_stamp_spec "a.txt" "hi" ParserKind.text (by decide)).1
    (TextParser.parse "hi")) rfl).2.1

/-- Fields produced by the CSV field splitter never contain a double
quote, as long as the accumulated field so far has none: quotes only
toggle the state. -/
theorem parseCSVLineGo_no_quote (l : List Char) :
    ∀ (field : List Char) (inQ : Bool), '"' ∉ field →
      ∀ f ∈ CSVParser.parseCSVLineGo l field inQ, '"' ∉ f := by
  induction l with
  | nil =>
    intro field inQ hf f hmem
    simp only [CSVParser.parseCSVLineGo, List.mem_singleton] at hmem
    subst hmem
    exact hf
  | cons c rest ih =>
    intro field inQ hf f hmem
    simp only [CSVParser.parseCSVLineGo] at hmem
    by_cases h1 : c = '"'
    · rw [if_pos h1] at hmem
      exact ih field (!inQ) hf f hmem
    · rw [if_neg h1] at hmem
      by_cases h2 : c = ',' ∧ inQ = false
      · rw [if_pos h2] at hmem
        rcases List.mem_cons.mp hmem with rfl | hmem2
        · exact hf
        · exact ih [] false (by simp) f hmem2
      · rw [if_neg h2] at hmem
        refine ih (field ++ [c]) inQ ?_ f hmem
        intro hq
        rcases List.mem_append.mp hq with hq | hq
        · exact hf hq
        · rw [List.mem_singleton] at hq
          exact h1 hq.symm

/-- A pipe-joined row contains no double quote when none of its fields
does. -/
theorem rowToLine_no_quote (row : List String)
    (h : ∀ f ∈ row, '"' ∉ f.data) : '"' ∉ (CSVParser.rowToLine row).data := by
  induction row with
  | nil => simp [CSVParser.rowToLine]
  | cons f rest ih =>
    cases rest with
    | nil =>
      simpa [CSVParser.rowToLine] using h f (by simp)
    | cons g rest2 =>
      show '"' ∉ (f ++ " | " ++ CSVParser.rowToLine (g :: rest2)).data
      rw [String.data_append, String.data_append]
      intro hq
      rcases List.mem_append.mp hq with hq | hq
      · rcases List.mem_append.mp hq with hq | hq
        · exact h f (by simp) hq
        · simp at hq
      · exact ih (fun f2 hf2 => h f2 (List.mem_cons_of_mem f hf2)) hq

/-- The whole reformatted CSV content contains no double quote when no
field of any row does. -/
theorem formatRows_no_quote (rows : List (List String))
    (h : ∀ row ∈ rows, ∀ f ∈ row, '"' ∉ f.data) :
    '"' ∉ (CSVParser.formatRows rows).data := by
  induction rows with
  | nil => simp [CSVParser.formatRows]
  | cons row rest ih =>
    show '"' ∉ (CSVParser.rowToLine row ++ "\n" ++ CSVParser.formatRows rest).data
    rw [String.data_append, String.data_append]
    intro hq
    rcases List.mem_append.mp hq with hq | hq
    · rcases List.mem_append.mp hq with hq | hq
      · exact rowToLine_no_quote row (h row (by simp)) hq
      · simp at hq
    · exact ih (fun r hr => h r (List.mem_cons_of_mem row hr)) hq

/-- C10: fields produced by the Tabular field splitter never contain a
double quote (a quote only toggles quote state and is dropped), the
reformatted pipe-joined content of the Tabular extractor is likewise
quote-free for every input, and a doubled quote inside a field yields
nothing rather than a literal quote. -/
theorem csv_fields_no_quote (line f : String)
    (h : f ∈ CSVParser.parseCSVLine line) :
    '"' ∉ f.data ∧
    (∀ content, '"' ∉ (CSVParser.parse content).content.data) ∧
    CSVParser.parseCSVLine "a\"\"b" = ["ab"] := by
  refine ⟨?_, ?_, by decide⟩
  · unfold CSVParser.parseCSVLine at h
    rcases List.mem_map.mp h with ⟨l0, hl0, rfl⟩
    show '"' ∉ l0
    exact parseCSVLineGo_no_quote line.data [] false (by simp) l0 hl0
  · intro content
    show '"' ∉ (CSVParser.formatRows (CSVParser.parseCSV content)).data
    refine formatRows_no_quote _ ?_
    intro row hrow f2 hf2
    unfold CSVParser.parseCSV at hrow
    rcases List.mem_map.mp hrow with ⟨lline, _, rfl⟩
    rcases List.mem_map.mp hf2 with ⟨l0, hl0, rfl⟩
    show '"' ∉ l0
    exact parseCSVLineGo_no_quote lline [] false (by simp) l0 hl0

/-- C10 witness: the splitter at a concrete quoted line. -/
theorem csv_fields_no_quote_witness :
    CSVParser.parseCSVLine "a\"\"b" = ["ab"] :=
  (csv_fields_no_quote "a,\"b\"" "a" (by decide)).2.2

/-- C2: on the two-line input with a quoted comma, the Tabular extractor
produces exactly the two rows, the first being a, b, c-comma-d; rows
metadata is 2 and columns metadata is 3 (field count of the first row);
and the content is the pipe-joined rendering of the rows, each row
followed by a newline, which contains the first joined row as a
substring. -/
theorem csvParser_example :
    CSVParser.parseCSV "a,b,\"c,d\"\n1,2,3" = [["a", "b", "c,d"], ["1", "2", "3"]] ∧
    (CSVParser.parse "a,b,\"c,d\"\n1,2,3").metadata.get? "rows" = some "2" ∧
    (CSVParser.parse "a,b,\"c,d\"\n1,2,3").metadata.get? "columns" = some "3" ∧
    (CSVParser.parse "a,b,\"c,d\"\n1,2,3").content = "a | b | c,d\n1 | 2 | 3\n" ∧
    (∃ pre post, (CSVParser.parse "a,b,\"c,d\"\n1,2,3").content =
      pre ++ "a | b | c,d" ++ post) := by
  refine ⟨by decide, by decide, by decide, by decide, "", "\n1 | 2 | 3\n", ?_⟩
  decide

/-- C7: the PlainText extractor passes content through unchanged, reports
encoding utf-8, and reports lines as the decimal rendering of the count of
newline characters plus one; the empty input yields lines 1 and
the input a-newline-b-newline yields lines 3. -/
theorem textParser_spec (content : String) :
    (TextParser.parse content).content = content ∧
    (TextParser.parse content).metadata.get? "encoding" = some "utf-8" ∧
    (TextParser.parse content).metadata.get? "lines" =
      some (toString (content.data.count '\n' + 1)) ∧
    (TextParser.parse "").metadata.get? "lines" = some "1" ∧
    (TextParser.parse "a\nb\n").metadata.get? "lines" = some "3" := by
  refine ⟨rfl, rfl, rfl, rfl, ?_⟩
  decide
